import Mathlib

/-!
# Verification of the DN codec in `Modules/functions.c` (python-ldap core)

This file shallowly embeds the two DN-codec entry points of
`Modules/functions.c`:

* `l_ldap_str2dn`  (Python `str2dn`): DN text → nested list of
  `(attributeType, attributeValue, flags)` triples;
* `l_ldap_dn2str`  (Python `dn2str`): nested triples → DN text.

The C file delegates the actual DN grammar to the OpenLDAP library routines
`ldap_bv2dn` and `ldap_dn2bv`, which are not part of this repository; those
two routines are modelled from the specification's grammar and escaping
rules (RFC 4514-style DN syntax).  Everything else — argument handling,
the Python-structure validation loops, the flag masking, the allocation
discipline — is translated directly from the C source.

Python values are modelled by the inductive type `PyObj`; machine integers
(AVA flag words) are modelled as `Int` with explicit two's-complement bit
arithmetic where the C code masks bits.
-/

/-! ## Data model: LDAPAVA / LDAPRDN / LDAPDN (from `ldap.h`) -/

/-- One attribute-value assertion, as in OpenLDAP's `LDAPAVA`:
attribute type, attribute value, and a flag word. -/
structure LDAPAVA where
  la_attr : String
  la_value : String
  la_flags : Int
deriving DecidableEq, Repr

/-- An RDN is a (NULL-terminated, here: Lean-list) sequence of AVAs. -/
abbrev LDAPRDN := List LDAPAVA

/-- A DN is a sequence of RDNs, most specific first. -/
abbrev LDAPDN := List LDAPRDN

/-- `LDAP_AVA_STRING` flag bit (plain string value). -/
def LDAP_AVA_STRING : Int := 1

/-- `LDAP_AVA_BINARY` flag bit (hex/binary value). -/
def LDAP_AVA_BINARY : Int := 2

/-- `LDAP_AVA_FREE_ATTR` internal ownership bit. -/
def LDAP_AVA_FREE_ATTR : Int := 16

/-- `LDAP_AVA_FREE_VALUE` internal ownership bit. -/
def LDAP_AVA_FREE_VALUE : Int := 32

/-- Bit `b` of the integer `n` in two's complement: floor-shift right by
`2 ^ b` then take the parity.  (`Int.ediv`/`Int.emod` by a positive power
of two agree with arithmetic shift / masking on two's-complement ints.) -/
def intBit (n : Int) (b : Nat) : Int := (n / 2 ^ b) % 2

/-- The C expression `flags & ~(LDAP_AVA_FREE_ATTR | LDAP_AVA_FREE_VALUE)`
from line 138 of `functions.c`: clear bits 4 and 5 of the flag word. -/
def clearOwnBits (n : Int) : Int := n - 16 * intBit n 4 - 32 * intBit n 5

/-- Test of the C expression `flags & LDAP_AVA_BINARY` (bit 1). -/
def hasBinaryBit (n : Int) : Bool := intBit n 1 = 1

/-! ## Character classes of the DN grammar (spec §4.1) -/

/-- The special characters of the DN notation that are backslash-escaped in
values: `, + " \ < > ; =` (spec §4.1 escaping rules). -/
def isSpecialChar (c : Char) : Bool :=
  c == ',' || c == '+' || c == '"' || c == '\\' ||
  c == '<' || c == '>' || c == ';' || c == '='

/-- Characters that may follow a backslash as a literal escape: the special
set plus space and `#` (leading/trailing space and leading `#` escapes). -/
def isEscapable (c : Char) : Bool := isSpecialChar c || c == ' ' || c == '#'

/-- AVA/RDN separators: `,` and `;` end an RDN, `+` separates AVAs. -/
def isSepChar (c : Char) : Bool := c == ',' || c == ';' || c == '+'

/-- Characters that may occur in an attribute type (descriptor letters,
digits, hyphen; dots of a numeric OID). -/
def isKeyChar (c : Char) : Bool := c.isAlphanum || c == '-' || c == '.'

/-- A descriptor attribute type: a letter followed by letters, digits and
hyphens. -/
def validDescriptor : List Char → Bool
  | [] => false
  | c :: rest => c.isAlpha && rest.all (fun d => d.isAlphanum || d == '-')

/-- State machine for `digit+ ('.' digit+)*`; the flag records whether at
least one digit of the current group has been read. -/
def validNumericOidAux : List Char → Bool → Bool
  | [], seen => seen
  | c :: rest, seen =>
    if c == '.' then seen && validNumericOidAux rest false
    else c.isDigit && validNumericOidAux rest true

/-- A dotted-numeric OID attribute type. -/
def validNumericOid (l : List Char) : Bool := validNumericOidAux l false

/-- `AttributeType := descriptor | numericoid` (spec §4.1). -/
def validAttrType (l : List Char) : Bool := validDescriptor l || validNumericOid l

/-- Value of a hex digit character, if it is one. -/
def hexVal (c : Char) : Option Nat :=
  if '0' ≤ c ∧ c ≤ '9' then some (c.toNat - '0'.toNat)
  else if 'a' ≤ c ∧ c ≤ 'f' then some (c.toNat - 'a'.toNat + 10)
  else if 'A' ≤ c ∧ c ≤ 'F' then some (c.toNat - 'A'.toNat + 10)
  else none

/-- Lower-case hex digit for a value `< 16`. -/
def hexDigitChar (n : Nat) : Char :=
  if n < 10 then Char.ofNat ('0'.toNat + n) else Char.ofNat ('a'.toNat + n - 10)

/-! ## Modelled serializer: `ldap_dn2bv` (spec §4.2)

Modelled from the spec: `ldap_dn2bv` is an OpenLDAP library routine, not
part of this repository.  The spec (§4.2) prescribes: serialize each AVA as
`type '=' escape(value)`, hex-encode the value instead when the AVA's flags
carry the binary bit, join AVAs with `+` and RDNs with `,`; the empty DN
serializes to the empty string. -/

/-- Escape one character of a plain value: prefix specials with `\`. -/
def escChar (c : Char) : List Char := if isSpecialChar c then ['\\', c] else [c]

/-- Escape all but the first character of a plain value; the last character
additionally gets a trailing-space escape. -/
def escapeTail : List Char → List Char
  | [] => []
  | c :: rest =>
    match rest with
    | [] => if c == ' ' then ['\\', ' '] else escChar c
    | _ => escChar c ++ escapeTail rest

/-- Escape a plain attribute value (spec §4.1/§4.2): backslash-escape the
special set everywhere, a space or `#` at the start, and a space at the
end. -/
def escapeValue : List Char → List Char
  | [] => []
  | c :: rest =>
    (if c == ' ' || c == '#' then ['\\', c] else escChar c) ++ escapeTail rest

/-- Hex-encode a value byte-wise, two lower-case digits per byte (the model
identifies characters `< 256` with bytes). -/
def hexEncode : List Char → List Char
  | [] => []
  | c :: rest => hexDigitChar (c.toNat / 16) :: hexDigitChar (c.toNat % 16) :: hexEncode rest

/-- Modelled from the spec: serialize one AVA as `type '=' value`, the value
hex-encoded (prefixed `#`) when the binary flag bit is set, escaped
otherwise. -/
def encodeAva (a : LDAPAVA) : List Char :=
  a.la_attr.data ++ '=' ::
    (if hasBinaryBit a.la_flags then '#' :: hexEncode a.la_value.data
     else escapeValue a.la_value.data)

/-- Modelled from the spec: AVAs of one RDN joined with `+`. -/
def encodeRdn (r : LDAPRDN) : List Char :=
  List.intercalate ['+'] (r.map encodeAva)

/-- Modelled from the spec: RDNs joined with `,`. -/
def encodeDn (d : LDAPDN) : List Char :=
  List.intercalate [','] (d.map encodeRdn)

/-- Modelled from the spec: the OpenLDAP serializer `ldap_dn2bv`.  The flag
argument selects the output dialect; the spec's test matrix exercises only
the default dialect, which is what is modelled; the serializer itself never
fails on a well-typed `LDAPDN` value. -/
def ldap_dn2bv (dn : LDAPDN) (_flags : Int) : Except Nat String :=
  .ok (String.mk (encodeDn dn))

/-! ## Modelled parser: `ldap_bv2dn` (spec §4.1)

Modelled from the spec: `ldap_bv2dn` is an OpenLDAP library routine, not
part of this repository.  The spec's grammar:
`DN := RDN (',' RDN)* | ''`, `RDN := AVA ('+' AVA)*`,
`AVA := AttributeType '=' AttributeValue`, with plain (escaped), quoted and
hex value notations.  Errors are reported as the engine error code
`LDAP_INVALID_DN_SYNTAX = 34`. -/

/-- The engine error code `LDAP_INVALID_DN_SYNTAX` (0x22). -/
def LDAP_INVALID_DN_SYNTAX : Nat := 34

/-- Prepend one decoded character to the value component of a reader
result. -/
def consVal (c : Char) (p : List Char × Option Char × List Char) :
    List Char × Option Char × List Char :=
  (c :: p.1, p.2.1, p.2.2)

/-- Decode a two-hex-digit escape or hex pair into its character. -/
def hexPairChar (h1 h2 : Nat) : Char := Char.ofNat (16 * h1 + h2)

/-- Read a plain (backslash-escaped) attribute value up to a separator or
end of input.  Returns the decoded value, the separator consumed (none at
end of input) and the remaining input.  An unterminated escape, a bad hex
escape or a stray quote is a syntax error. -/
def readPlain : List Char → Except Nat (List Char × Option Char × List Char)
  | [] => .ok ([], none, [])
  | c :: rest =>
    if c == '\\' then
      match rest with
      | [] => .error LDAP_INVALID_DN_SYNTAX
      | d :: rest2 =>
        if isEscapable d then
          (readPlain rest2).map (consVal d)
        else
          match rest2 with
          | [] => .error LDAP_INVALID_DN_SYNTAX
          | e :: rest3 =>
            match hexVal d, hexVal e with
            | some h1, some h2 => (readPlain rest3).map (consVal (hexPairChar h1 h2))
            | _, _ => .error LDAP_INVALID_DN_SYNTAX
    else if isSepChar c then .ok ([], some c, rest)
    else if c == '"' then .error LDAP_INVALID_DN_SYNTAX
    else (readPlain rest).map (consVal c)

/-- Read a quoted attribute value after the opening `"`: separators lose
their meaning until the closing quote, backslash escapes apply, an
unterminated quote is a syntax error; after the closing quote only a
separator or end of input may follow. -/
def readQuoted : List Char → Except Nat (List Char × Option Char × List Char)
  | [] => .error LDAP_INVALID_DN_SYNTAX
  | c :: rest =>
    if c == '"' then
      match rest with
      | [] => .ok ([], none, [])
      | e :: rest2 =>
        if isSepChar e then .ok ([], some e, rest2)
        else .error LDAP_INVALID_DN_SYNTAX
    else if c == '\\' then
      match rest with
      | [] => .error LDAP_INVALID_DN_SYNTAX
      | d :: rest2 =>
        if isEscapable d then
          (readQuoted rest2).map (consVal d)
        else .error LDAP_INVALID_DN_SYNTAX
    else (readQuoted rest).map (consVal c)

/-- Read a hex attribute value after the leading `#`: pairs of hex digits
up to a separator or end of input; an odd digit count or a non-hex digit is
a syntax error. -/
def readHex : List Char → Except Nat (List Char × Option Char × List Char)
  | [] => .ok ([], none, [])
  | c :: rest =>
    if isSepChar c then .ok ([], some c, rest)
    else
      match rest with
      | [] => .error LDAP_INVALID_DN_SYNTAX
      | e :: rest2 =>
        match hexVal c, hexVal e with
        | some h1, some h2 => (readHex rest2).map (consVal (hexPairChar h1 h2))
        | _, _ => .error LDAP_INVALID_DN_SYNTAX

/-- Package a parsed value into the engine's AVA record. -/
def mkAvaRes (attr : List Char) (fl : Int) (p : List Char × Option Char × List Char) :
    LDAPAVA × Option Char × List Char :=
  (⟨String.mk attr, String.mk p.1, fl⟩, p.2.1, p.2.2)

/-- Parse one AVA: an attribute type, `=`, and a value in one of the three
notations.  Plain values are flagged `LDAP_AVA_STRING`, hex values
`LDAP_AVA_BINARY`; the engine additionally sets the internal ownership
bits `LDAP_AVA_FREE_ATTR | LDAP_AVA_FREE_VALUE` on the freshly allocated
buffers, as OpenLDAP does. -/
def parseAva (l : List Char) : Except Nat (LDAPAVA × Option Char × List Char) :=
  let attr := l.takeWhile isKeyChar
  let rest := l.dropWhile isKeyChar
  if validAttrType attr then
    match rest with
    | '=' :: rest2 =>
      match rest2 with
      | '#' :: rest3 =>
        (readHex rest3).map
          (mkAvaRes attr (LDAP_AVA_BINARY + LDAP_AVA_FREE_ATTR + LDAP_AVA_FREE_VALUE))
      | '"' :: rest3 =>
        (readQuoted rest3).map
          (mkAvaRes attr (LDAP_AVA_STRING + LDAP_AVA_FREE_ATTR + LDAP_AVA_FREE_VALUE))
      | _ =>
        (readPlain rest2).map
          (mkAvaRes attr (LDAP_AVA_STRING + LDAP_AVA_FREE_ATTR + LDAP_AVA_FREE_VALUE))
    | _ => .error LDAP_INVALID_DN_SYNTAX
  else .error LDAP_INVALID_DN_SYNTAX

/-- Parse the flat sequence of AVAs with their following separators; the
fuel bounds the number of AVAs (one unit per AVA). -/
def parseAvaList : Nat → List Char → Except Nat (List (LDAPAVA × Option Char))
  | 0, _ => .error LDAP_INVALID_DN_SYNTAX
  | fuel + 1, l =>
    match parseAva l with
    | .error e => .error e
    | .ok (ava, s, r) =>
      match s with
      | none => .ok [(ava, none)]
      | some c =>
        match parseAvaList fuel r with
        | .error e => .error e
        | .ok tl => .ok ((ava, some c) :: tl)

/-- Group the flat AVA/separator sequence into RDNs: a `+` separator keeps
the following AVA in the same RDN, a `,`/`;` separator starts a new RDN. -/
def groupAvas : List (LDAPAVA × Option Char) → LDAPDN
  | [] => []
  | (a, s) :: rest =>
    if s = some '+' then
      match groupAvas rest with
      | [] => [[a]]
      | r :: rs => (a :: r) :: rs
    else [a] :: groupAvas rest

/-- Modelled from the spec: the OpenLDAP parser `ldap_bv2dn`.  Empty input
is the valid empty DN; otherwise the AVA sequence is parsed and grouped
into RDNs.  The flag argument selects the accepted dialect; the spec's
test matrix exercises only the default dialect, which is what is
modelled. -/
def ldap_bv2dn (s : String) (_flags : Int) : Except Nat LDAPDN :=
  match s.data with
  | [] => .ok []
  | c :: cs => (parseAvaList ((c :: cs).length + 1) (c :: cs)).map groupAvas

/-! ## The Python value and error model -/

/-- Shallow model of the Python values the module handles: strings,
integers, lists, tuples, `None`, and one further iterable kind (`pyiter`,
standing for e.g. a set or generator) that is neither a list nor a
tuple. -/
inductive PyObj where
  | pystr (s : String)
  | pyint (n : Int)
  | pylist (xs : List PyObj)
  | pytuple (xs : List PyObj)
  | pyiter (xs : List PyObj)
  | pynone
deriving Repr

/-- Python exceptions raised by the two entry points: `TypeError` (from
`PyErr_SetString(PyExc_TypeError, ...)`), an LDAP error carrying the
engine code (from `LDAPerr(res)`), and the `TypeError` raised by
`PyArg_ParseTuple` on a wrong argument list. -/
inductive PyErr where
  | typeError (msg : String)
  | ldapError (code : Nat)
  | argError (meth : String)
deriving DecidableEq, Repr

/-- The message of line 173: `expected List[Tuple[str, str, int]]`. -/
def typeErrorMsg : String := "expected List[Tuple[str, str, int]]"

/-- `PyObject_GetIter`: the element sequence of an iterable, `none` for a
non-iterable object.  Strings iterate into their one-character strings. -/
def PyObj.iterSeq : PyObj → Option (List PyObj)
  | .pystr s => some (s.data.map (fun c => .pystr (String.mk [c])))
  | .pylist xs => some xs
  | .pytuple xs => some xs
  | .pyiter xs => some xs
  | _ => none

/-- Lines 198-200 / 216-218: `if (PyList_Check(x)) x = PyList_AsTuple(x);`. -/
def asTupleIfList : PyObj → PyObj
  | .pylist xs => .pytuple xs
  | o => o

/-! ## `l_ldap_str2dn` (functions.c lines 90-161) -/

/-- Lines 114-152: convert the engine's `LDAPDN` into the Python list of
lists of `(attr, value, flags)` tuples, masking the internal ownership
bits out of each flag word (line 138). -/
def str2dnConvert (dn : LDAPDN) : PyObj :=
  .pylist (dn.map (fun rdn =>
    .pylist (rdn.map (fun ava =>
      .pytuple [.pystr ava.la_attr, .pystr ava.la_value,
                .pyint (clearOwnBits ava.la_flags)]))))

/-- `l_ldap_str2dn` after argument parsing: run the engine, report a
non-success result via `LDAPerr`, otherwise convert the parsed DN. -/
def l_ldap_str2dn (s : String) (flags : Int) : Except PyErr PyObj :=
  match ldap_bv2dn s flags with
  | .error code => .error (.ldapError code)
  | .ok dn => .ok (str2dnConvert dn)

/-- The `str2dn` method including `PyArg_ParseTuple(args, "z#|i:str2dn")`:
one mandatory string-or-None argument, one optional integer flag argument
defaulting to 0.  (`None` passes a NULL/zero-length buffer to the engine,
which treats it like the empty string.) -/
def str2dnMeth (args : List PyObj) : Except PyErr PyObj :=
  match args with
  | [.pystr s] => l_ldap_str2dn s 0
  | [.pystr s, .pyint f] => l_ldap_str2dn s f
  | [.pynone] => l_ldap_str2dn "" 0
  | [.pynone, .pyint f] => l_ldap_str2dn "" f
  | _ => .error (.argError "str2dn")

/-! ## `l_ldap_dn2str` (functions.c lines 165-275) -/

/-- Lines 216-250: validate and convert one AVA element: after converting
a list to a tuple, the element must be a tuple of size ≥ 3 whose first
three items are (unicode, unicode, long); extra items are never read. -/
def convAva (next0 : PyObj) : Except PyErr LDAPAVA :=
  match asTupleIfList next0 with
  | .pytuple xs =>
    match xs with
    | .pystr t :: .pystr v :: .pyint fl :: _ => .ok ⟨t, v, fl⟩
    | _ => .error (.typeError typeErrorMsg)
  | _ => .error (.typeError typeErrorMsg)

/-- Lines 198-254: validate and convert one RDN element: after converting
a list to a tuple, the element must be a tuple; its items are converted
one by one, stopping at the first bad one. -/
def convRdn (inext0 : PyObj) : Except PyErr LDAPRDN :=
  match asTupleIfList inext0 with
  | .pytuple xs => xs.mapM convAva
  | _ => .error (.typeError typeErrorMsg)

/-- Lines 184-258: the outer value must be iterable
(`PyObject_GetIter`), its elements are converted one by one. -/
def convDn (dn_list : PyObj) : Except PyErr LDAPDN :=
  match dn_list.iterSeq with
  | some xs => xs.mapM convRdn
  | none => .error (.typeError typeErrorMsg)

/-- `l_ldap_dn2str` after argument parsing: validate/convert the nested
Python structure, hand the result to the engine serializer, report a
non-success engine result via `LDAPerr`. -/
def l_ldap_dn2str (dn_list : PyObj) (flags : Int) : Except PyErr String :=
  match convDn dn_list with
  | .error e => .error e
  | .ok dn =>
    match ldap_dn2bv dn flags with
    | .error code => .error (.ldapError code)
    | .ok s => .ok s

/-- The `dn2str` method including `PyArg_ParseTuple(args, "Oi:dn2str")`:
both the object and the integer flag argument are mandatory. -/
def dn2strMeth (args : List PyObj) : Except PyErr String :=
  match args with
  | [o, .pyint f] => l_ldap_dn2str o f
  | _ => .error (.argError "dn2str")

/-! ## Caller-side representation of a structured DN -/

/-- The Python representation of an AVA a caller hands to `dn2str`. -/
def avaToPy (a : LDAPAVA) : PyObj :=
  .pytuple [.pystr a.la_attr, .pystr a.la_value, .pyint a.la_flags]

/-- The Python representation of a structured DN: list of lists of
triples, as produced by `str2dn` and accepted by `dn2str`. -/
def dnToPy (d : LDAPDN) : PyObj :=
  .pylist (d.map (fun r => .pylist (r.map avaToPy)))

/-! ## Well-formedness of a structured DN (spec §3 invariants) -/

/-- A well-formed AVA (spec §3): valid non-empty attribute type and a flag
word that is exactly one public encoding-variant bit — `LDAP_AVA_STRING`
for a plain value, or `LDAP_AVA_BINARY` for a binary value whose
characters are bytes. -/
def wfAva (a : LDAPAVA) : Prop :=
  validAttrType a.la_attr.data = true ∧
  (a.la_flags = LDAP_AVA_STRING ∨
   (a.la_flags = LDAP_AVA_BINARY ∧ ∀ c ∈ a.la_value.data, c.toNat < 256))

instance (a : LDAPAVA) : Decidable (wfAva a) := by
  unfold wfAva; infer_instance

/-- A well-formed structured DN (spec §3): every RDN non-empty, every AVA
well-formed. -/
def wfDn (d : LDAPDN) : Prop :=
  ∀ r ∈ d, r ≠ [] ∧ ∀ a ∈ r, wfAva a

instance (d : LDAPDN) : Decidable (wfDn d) := by
  unfold wfDn; infer_instance

/-! ## Allocation-instrumented builder (functions.c lines 165-275)

The C builder heap-allocates one `LDAPDN` record at line 169, one
`LDAPRDN` record per RDN at line 209 and one `LDAPAVA` record per AVA at
line 247, and contains no `free`/`ldap_dnfree` call on any path (the
`ldap_dnfree(dn)` at line 273 is commented out).  The instrumented
variant of the builder below counts these events. -/

/-- Malloc/free counters for one `dn2str` call. -/
structure AllocState where
  mallocs : Nat
  frees : Nat
deriving DecidableEq, Repr

/-- `convAva` with the line-247 `malloc(sizeof(LDAPAVA))` counted; the
malloc happens only after all three item type checks pass. -/
def convAvaCounted (next0 : PyObj) : Except PyErr LDAPAVA × Nat :=
  match convAva next0 with
  | .ok a => (.ok a, 1)
  | .error e => (.error e, 0)

/-- The inner while loop (lines 210-254) with AVA mallocs counted; on a bad
element the loop is abandoned (`goto failed`) with the counts so far. -/
def convAvasCounted : List PyObj → Except PyErr LDAPRDN × Nat
  | [] => (.ok [], 0)
  | x :: xs =>
    match convAvaCounted x with
    | (.error e, n) => (.error e, n)
    | (.ok a, n) =>
      match convAvasCounted xs with
      | (.error e, m) => (.error e, n + m)
      | (.ok tl, m) => (.ok (a :: tl), n + m)

/-- One outer-loop iteration with the line-209 `malloc(sizeof(LDAPRDN))`
counted; the malloc happens after the tuple check of the RDN element. -/
def convRdnCounted (inext0 : PyObj) : Except PyErr LDAPRDN × Nat :=
  match asTupleIfList inext0 with
  | .pytuple xs =>
    match convAvasCounted xs with
    | (r, n) => (r, 1 + n)
  | _ => (.error (.typeError typeErrorMsg), 0)

/-- The outer while loop (lines 192-258) with mallocs counted. -/
def convRdnsCounted : List PyObj → Except PyErr LDAPDN × Nat
  | [] => (.ok [], 0)
  | x :: xs =>
    match convRdnCounted x with
    | (.error e, n) => (.error e, n)
    | (.ok r, n) =>
      match convRdnsCounted xs with
      | (.error e, m) => (.error e, n + m)
      | (.ok tl, m) => (.ok (r :: tl), n + m)

/-- `l_ldap_dn2str` with allocation accounting.  The `LDAPDN` malloc of
line 169 is performed unconditionally at entry; no exit path performs any
free (the `ldap_dnfree(dn)` of line 273 is commented out in the source),
so the `frees` counter is 0 on every path. -/
def dn2strCounted (dn_list : PyObj) (flags : Int) : Except PyErr String × AllocState :=
  match
    (match dn_list.iterSeq with
     | none => ((.error (.typeError typeErrorMsg) : Except PyErr String), 0)
     | some xs =>
       match convRdnsCounted xs with
       | (.error e, n) => (.error e, n)
       | (.ok dn, n) =>
         match ldap_dn2bv dn flags with
         | .error code => (.error (.ldapError code), n)
         | .ok s => (.ok s, n))
  with
  | (res, n) => (res, { mallocs := 1 + n, frees := 0 })

/-! ## The loose builder input shape (claim C6) -/

/-- An AVA element the builder's inner checks accept: a tuple or list whose
first three items are (string, string, integer); further items may follow
and are never read. -/
def looseTriple (o : PyObj) : Prop :=
  ∃ xs, (o = .pytuple xs ∨ o = .pylist xs) ∧
    ∃ t v fl extra, xs = .pystr t :: .pystr v :: .pyint fl :: extra

/-- An RDN element the builder's outer checks accept: a tuple or list all
of whose items are loose AVA triples. -/
def looseRdn (o : PyObj) : Prop :=
  ∃ xs, (o = .pytuple xs ∨ o = .pylist xs) ∧ ∀ x ∈ xs, looseTriple x

/-- A builder input whose outer value is any iterable and whose elements
are loose RDNs. -/
def looseDn (o : PyObj) : Prop :=
  ∃ xs, o.iterSeq = some xs ∧ ∀ x ∈ xs, looseRdn x

/-! ## The rejected builder input shapes (claim C2) -/

/-- A builder input of rejected shape: the outer value is not iterable, or
some element of the outer sequence fails the accepted RDN shape — it is
not a list/tuple, or one of its items is not a list/tuple whose first
three elements are (string, string, integer); the latter covers a triple
of length 2 missing the flags element. -/
def badShape (o : PyObj) : Prop :=
  o.iterSeq = none ∨ ∃ xs, o.iterSeq = some xs ∧ ∃ x ∈ xs, ¬ looseRdn x

/-- `l_ldap_dn2str` paired with the caller's structure after the call.
The C builder performs no mutating operation on any caller object: lines
184-258 call only `PyObject_GetIter` (which creates a fresh iterator),
`PyIter_Next` on that fresh iterator, `PyList_AsTuple` (which builds a
new tuple, leaving the list intact), `PyTuple_GetItem` (a borrowed read)
and `PyUnicode_AsEncodedString` (which builds a new bytes object); no
mutating `Py...` call appears.  The caller's structure after the call is
therefore the argument value itself. -/
def dn2strCaller (dn_list : PyObj) (flags : Int) : Except PyErr String × PyObj :=
  (l_ldap_dn2str dn_list flags, dn_list)

/-! ## Flag extraction from a parser result (claim C3) -/

/-- The flag integer of one AVA triple, when the value is one. -/
def avaFlagsOf : PyObj → List Int
  | .pytuple [_, _, .pyint fl] => [fl]
  | _ => []

/-- All flag integers of the AVA triples of one RDN list. -/
def rdnFlagsOf : PyObj → List Int
  | .pylist avas => avas.flatMap avaFlagsOf
  | _ => []

/-- All flag integers appearing in third position of the AVA triples of a
`str2dn` result. -/
def pyFlagsOf : PyObj → List Int
  | .pylist rdns => rdns.flatMap rdnFlagsOf
  | _ => []

/-! ## Round-trip scaffolding (claim C1)

The round-trip proof works over the flat sequence of AVAs and the
separators that follow them, which is what `parseAvaList` produces and
`groupAvas` regroups. -/

/-- The AVA as the engine returns it after parsing: same attribute and
value, with the internal ownership bits added to the flag word (the
engine owns the freshly allocated buffers). -/
def markAva (a : LDAPAVA) : LDAPAVA :=
  ⟨a.la_attr, a.la_value, a.la_flags + LDAP_AVA_FREE_ATTR + LDAP_AVA_FREE_VALUE⟩

/-- Ownership marking applied throughout a DN. -/
def markDn (d : LDAPDN) : LDAPDN := d.map (fun r => r.map markAva)

/-- Ownership marking applied throughout a flat AVA/separator sequence. -/
def markFlat (L : List (LDAPAVA × Option Char)) : List (LDAPAVA × Option Char) :=
  L.map (fun p => (markAva p.1, p.2))

/-- The characters a separator contributes to the DN text. -/
def sepList : Option Char → List Char
  | none => []
  | some c => [c]

/-- A separator annotation is admissible when present only as a separator
character. -/
def sepOk : Option Char → Prop
  | none => True
  | some c => isSepChar c = true

/-- Flatten one RDN into AVA/separator pairs: `+` after every AVA but the
last, which carries the given continuation separator. -/
def flattenRdn (r : LDAPRDN) (after : Option Char) : List (LDAPAVA × Option Char) :=
  match r with
  | [] => []
  | a :: rest =>
    match rest with
    | [] => [(a, after)]
    | _ => (a, some '+') :: flattenRdn rest after

/-- Flatten a DN into AVA/separator pairs: `,` after every RDN but the
last. -/
def flattenDn : LDAPDN → List (LDAPAVA × Option Char)
  | [] => []
  | r :: rest =>
    match rest with
    | [] => flattenRdn r none
    | _ => flattenRdn r (some ',') ++ flattenDn rest

/-- Serialize a flat AVA/separator sequence. -/
def flatEncode : List (LDAPAVA × Option Char) → List Char
  | [] => []
  | (a, s) :: rest => encodeAva a ++ sepList s ++ flatEncode rest

/-- Well-formed flat AVA/separator sequences: non-empty, every AVA
well-formed, every separator a separator character, and no separator after
the final AVA. -/
inductive WfFlat : List (LDAPAVA × Option Char) → Prop
  | last (a : LDAPAVA) : wfAva a → WfFlat [(a, none)]
  | cons (a : LDAPAVA) (c : Char) (l : List (LDAPAVA × Option Char)) :
      wfAva a → isSepChar c = true → WfFlat l → WfFlat ((a, some c) :: l)

/-! ## Helper lemmas -/

/-- Clearing bits 4 and 5 leaves bits 4 and 5 clear, for any two's
complement integer. -/
theorem clearOwnBits_clean (n : Int) :
    intBit (clearOwnBits n) 4 = 0 ∧ intBit (clearOwnBits n) 5 = 0 := by
  unfold clearOwnBits intBit
  have h4 : (2 : Int) ^ 4 = 16 := by norm_num
  have h5 : (2 : Int) ^ 5 = 32 := by norm_num
  rw [h4, h5]
  omega

/-- An `Except`-monad `mapM` succeeds when the function succeeds on every
element. -/
theorem exceptMapM_ok {α β ε : Type} (f : α → Except ε β) :
    ∀ xs : List α, (∀ x ∈ xs, ∃ y, f x = .ok y) → ∃ ys, xs.mapM f = .ok ys := by
  intro xs
  induction xs with
  | nil => exact fun _ => ⟨[], rfl⟩
  | cons x xs ih =>
    intro h
    obtain ⟨y, hy⟩ := h x (List.mem_cons_self x xs)
    obtain ⟨ys, hys⟩ := ih (fun a ha => h a (List.mem_cons_of_mem x ha))
    exact ⟨y :: ys, by rw [List.mapM_cons, hy, hys]; rfl⟩

/-- A loose AVA triple passes the inner validation of `dn2str`. -/
theorem convAva_loose {o : PyObj} (h : looseTriple o) : ∃ a, convAva o = .ok a := by
  obtain ⟨xs, hor, t, v, fl, extra, rfl⟩ := h
  rcases hor with rfl | rfl
  · exact ⟨⟨t, v, fl⟩, rfl⟩
  · exact ⟨⟨t, v, fl⟩, rfl⟩

/-- A loose RDN element passes the outer validation of `dn2str`. -/
theorem convRdn_loose {o : PyObj} (h : looseRdn o) : ∃ r, convRdn o = .ok r := by
  obtain ⟨xs, hor, hall⟩ := h
  obtain ⟨ys, hys⟩ := exceptMapM_ok convAva xs (fun x hx => convAva_loose (hall x hx))
  rcases hor with rfl | rfl
  · exact ⟨ys, by simpa [convRdn, asTupleIfList] using hys⟩
  · exact ⟨ys, by simpa [convRdn, asTupleIfList] using hys⟩

/-- The inner AVA validation either meets a tuple shaped
`(string, string, integer, ...)` or rejects with the `TypeError`. -/
theorem convAvaTuple_cases (xs : List PyObj) :
    (∃ t v fl extra, xs = .pystr t :: .pystr v :: .pyint fl :: extra) ∨
    convAva (.pytuple xs) = .error (.typeError typeErrorMsg) := by
  match xs with
  | [] => exact Or.inr rfl
  | .pyint _ :: _ | .pylist _ :: _ | .pytuple _ :: _ | .pyiter _ :: _ | .pynone :: _ =>
    exact Or.inr rfl
  | [.pystr _] => exact Or.inr rfl
  | .pystr _ :: .pyint _ :: _ | .pystr _ :: .pylist _ :: _ | .pystr _ :: .pytuple _ :: _
      | .pystr _ :: .pyiter _ :: _ | .pystr _ :: .pynone :: _ =>
    exact Or.inr rfl
  | [.pystr _, .pystr _] => exact Or.inr rfl
  | .pystr _ :: .pystr _ :: .pystr _ :: _ | .pystr _ :: .pystr _ :: .pylist _ :: _
      | .pystr _ :: .pystr _ :: .pytuple _ :: _ | .pystr _ :: .pystr _ :: .pyiter _ :: _
      | .pystr _ :: .pystr _ :: .pynone :: _ =>
    exact Or.inr rfl
  | .pystr t :: .pystr v :: .pyint fl :: extra => exact Or.inl ⟨t, v, fl, extra, rfl⟩

/-- `convAva` succeeds exactly on loose AVA triples and otherwise rejects
with the `TypeError` carrying the expected-shape message. -/
theorem convAva_cases (o : PyObj) :
    (looseTriple o ∧ ∃ a, convAva o = .ok a) ∨
    convAva o = .error (.typeError typeErrorMsg) := by
  cases o with
  | pylist xs =>
    rcases convAvaTuple_cases xs with ⟨t, v, fl, extra, rfl⟩ | herr
    · exact Or.inl ⟨⟨_, Or.inr rfl, t, v, fl, extra, rfl⟩, ⟨t, v, fl⟩, rfl⟩
    · exact Or.inr ((show convAva (.pylist xs) = convAva (.pytuple xs) from rfl).trans herr)
  | pytuple xs =>
    rcases convAvaTuple_cases xs with ⟨t, v, fl, extra, rfl⟩ | herr
    · exact Or.inl ⟨⟨_, Or.inl rfl, t, v, fl, extra, rfl⟩, ⟨t, v, fl⟩, rfl⟩
    · exact Or.inr herr
  | pystr s => exact Or.inr rfl
  | pyint n => exact Or.inr rfl
  | pyiter xs => exact Or.inr rfl
  | pynone => exact Or.inr rfl

/-- A non-triple AVA element is rejected with the `TypeError`. -/
theorem convAva_bad {o : PyObj} (h : ¬ looseTriple o) :
    convAva o = .error (.typeError typeErrorMsg) := by
  rcases convAva_cases o with ⟨hlt, _⟩ | herr
  · exact absurd hlt h
  · exact herr

/-- An `Except`-monad `mapM` whose only error value is `e0` fails with
`e0` as soon as any element fails. -/
theorem exceptMapM_error {α β ε : Type} (f : α → Except ε β) (e0 : ε) :
    ∀ xs : List α, (∀ x ∈ xs, (∃ y, f x = .ok y) ∨ f x = .error e0) →
      (∃ x ∈ xs, f x = .error e0) → xs.mapM f = .error e0 := by
  intro xs
  induction xs with
  | nil =>
    rintro _ ⟨x, hx, _⟩
    exact absurd hx (List.not_mem_nil x)
  | cons a as ih =>
    intro hall hbad
    rcases hall a (List.mem_cons_self a as) with ⟨y, hy⟩ | herr
    · rw [List.mapM_cons, hy]
      have htail : as.mapM f = .error e0 := by
        apply ih (fun z hz => hall z (List.mem_cons_of_mem a hz))
        obtain ⟨x, hx, hfx⟩ := hbad
        rcases List.mem_cons.mp hx with rfl | hx'
        · rw [hy] at hfx
          exact Except.noConfusion hfx
        · exact ⟨x, hx', hfx⟩
      rw [htail]
      rfl
    · rw [List.mapM_cons, herr]
      rfl

/-- `convRdn` either succeeds or rejects with the `TypeError` carrying the
expected-shape message — no other error is possible. -/
theorem convRdn_ok_or_error (x : PyObj) :
    (∃ r, convRdn x = .ok r) ∨ convRdn x = .error (.typeError typeErrorMsg) := by
  have hmap : ∀ xs : List PyObj,
      (∃ r, xs.mapM convAva = .ok r) ∨
        xs.mapM convAva = .error (.typeError typeErrorMsg) := by
    intro xs
    by_cases hbad : ∃ y ∈ xs, ¬ looseTriple y
    · obtain ⟨y, hy, hby⟩ := hbad
      exact Or.inr (exceptMapM_error convAva (.typeError typeErrorMsg) xs
        (fun z _ => (convAva_cases z).imp And.right id) ⟨y, hy, convAva_bad hby⟩)
    · push_neg at hbad
      exact Or.inl (exceptMapM_ok convAva xs (fun z hz => convAva_loose (hbad z hz)))
  cases x with
  | pylist xs => exact hmap xs
  | pytuple xs => exact hmap xs
  | pystr s => exact Or.inr rfl
  | pyint n => exact Or.inr rfl
  | pyiter xs => exact Or.inr rfl
  | pynone => exact Or.inr rfl

/-- An RDN element that fails the accepted loose shape — not a list/tuple,
or holding a non-triple item — is rejected with the `TypeError`. -/
theorem convRdn_bad {x : PyObj} (h : ¬ looseRdn x) :
    convRdn x = .error (.typeError typeErrorMsg) := by
  have hmap : ∀ xs : List PyObj, (∃ y ∈ xs, ¬ looseTriple y) →
      xs.mapM convAva = .error (.typeError typeErrorMsg) := by
    intro xs hbad
    obtain ⟨y, hy, hby⟩ := hbad
    exact exceptMapM_error convAva (.typeError typeErrorMsg) xs
      (fun z _ => (convAva_cases z).imp And.right id) ⟨y, hy, convAva_bad hby⟩
  cases x with
  | pylist xs =>
    refine hmap xs ?_
    by_contra hall
    push_neg at hall
    exact h ⟨xs, Or.inr rfl, hall⟩
  | pytuple xs =>
    refine hmap xs ?_
    by_contra hall
    push_neg at hall
    exact h ⟨xs, Or.inl rfl, hall⟩
  | pystr s => rfl
  | pyint n => rfl
  | pyiter xs => rfl
  | pynone => rfl

/-- Every flag integer of a converted parser result arises by masking the
ownership bits out of some engine flag word. -/
theorem pyFlagsOf_str2dnConvert (dn : LDAPDN) :
    ∀ fl ∈ pyFlagsOf (str2dnConvert dn), ∃ m, fl = clearOwnBits m := by
  intro fl hfl
  simp only [pyFlagsOf, str2dnConvert, List.mem_flatMap] at hfl
  obtain ⟨r, hr, hfl⟩ := hfl
  rw [List.mem_map] at hr
  obtain ⟨rdn, _, rfl⟩ := hr
  simp only [rdnFlagsOf, List.mem_flatMap] at hfl
  obtain ⟨t, ht, hfl⟩ := hfl
  rw [List.mem_map] at ht
  obtain ⟨ava, _, rfl⟩ := ht
  simp only [avaFlagsOf, List.mem_singleton] at hfl
  exact ⟨ava.la_flags, hfl⟩

/-! ## The claims -/

/-- C2: builder shape validation.  For every caller-supplied input of
rejected shape (`badShape`) — the outer value not iterable, or some
element not a list/tuple, or some innermost element not a list/tuple
whose first three items are (string, string, integer), which covers a
triple of length 2 missing the flags element — and every flag value,
`dn2str` fails with the `TypeError` naming the expected shape, produces
no output string, and leaves the caller's structure unchanged (the model
is a pure value function; see `dn2strCaller` for the trace of the C
code's read-only calls).  The two concrete shapes of the spec's test
matrix, `build("not-a-sequence", 0)` (a bare string as outer value,
iterable but yielding non-sequence characters) and
`build([[("a","b")]], 0)` (triple missing the flags element), are also
settled by direct evaluation. -/
theorem c2_shape_rejection :
    (∀ (o : PyObj) (f : Int), badShape o →
      l_ldap_dn2str o f = .error (.typeError typeErrorMsg) ∧
      (∀ s, l_ldap_dn2str o f ≠ .ok s) ∧
      (dn2strCaller o f).2 = o) ∧
    l_ldap_dn2str (.pystr "not-a-sequence") 0 = .error (.typeError typeErrorMsg) ∧
    l_ldap_dn2str (.pylist [.pylist [.pytuple [.pystr "a", .pystr "b"]]]) 0 =
      .error (.typeError typeErrorMsg) := by
  refine ⟨fun o f hbad => ?_, rfl, rfl⟩
  have herr : l_ldap_dn2str o f = .error (.typeError typeErrorMsg) := by
    rcases hbad with hnone | ⟨xs, hiter, x, hx, hbx⟩
    · simp [l_ldap_dn2str, convDn, hnone]
    · have hmap : xs.mapM convRdn = .error (.typeError typeErrorMsg) :=
        exceptMapM_error convRdn (.typeError typeErrorMsg) xs
          (fun z _ => convRdn_ok_or_error z) ⟨x, hx, convRdn_bad hbx⟩
      have hconv : convDn o = .error (.typeError typeErrorMsg) := by
        unfold convDn
        rw [hiter]
        exact hmap
      unfold l_ldap_dn2str
      rw [hconv]
  exact ⟨herr, fun s hs => Except.noConfusion (herr ▸ hs), rfl⟩

/-- Witness for C2 exercising all three rejected-shape classes: a
non-iterable outer value, an element that is not a list/tuple, and an
innermost triple of length 2 missing the flags element. -/
theorem c2_shape_rejection_witness :
    l_ldap_dn2str (.pyint 7) 0 = .error (.typeError typeErrorMsg) ∧
    l_ldap_dn2str (.pylist [.pystr "x"]) 0 = .error (.typeError typeErrorMsg) ∧
    l_ldap_dn2str (.pylist [.pytuple [.pytuple [.pystr "a", .pystr "b"]]]) 0 =
      .error (.typeError typeErrorMsg) :=
  ⟨(c2_shape_rejection.1 (.pyint 7) 0 (Or.inl rfl)).1,
   (c2_shape_rejection.1 (.pylist [.pystr "x"]) 0 (Or.inr ⟨[.pystr "x"], rfl, .pystr "x",
      List.mem_singleton.mpr rfl, fun hl => by
        obtain ⟨xs, hor, _⟩ := hl
        rcases hor with h | h <;> exact PyObj.noConfusion h⟩)).1,
   (c2_shape_rejection.1 (.pylist [.pytuple [.pytuple [.pystr "a", .pystr "b"]]]) 0
      (Or.inr ⟨[.pytuple [.pytuple [.pystr "a", .pystr "b"]]], rfl,
        .pytuple [.pytuple [.pystr "a", .pystr "b"]], List.mem_singleton.mpr rfl,
        fun hl => by
          obtain ⟨xs, hor, hall⟩ := hl
          have hxs : xs = [PyObj.pytuple [.pystr "a", .pystr "b"]] := by
            rcases hor with h | h
            · exact (PyObj.pytuple.injEq _ _).mp h.symm
            · exact PyObj.noConfusion h
          subst hxs
          obtain ⟨ys, hor2, t, v, fl, extra, hys⟩ := hall _ (List.mem_singleton.mpr rfl)
          have hys2 : ys = [PyObj.pystr "a", .pystr "b"] := by
            rcases hor2 with h | h
            · exact (PyObj.pytuple.injEq _ _).mp h.symm
            · exact PyObj.noConfusion h
          subst hys2
          simp at hys⟩)).1⟩

/-- C3: the flags returned by `str2dn` never carry the internal
memory-ownership bits (`LDAP_AVA_FREE_ATTR` = bit 4, `LDAP_AVA_FREE_VALUE`
= bit 5): the conversion loop masks them out of every AVA flag word. -/
theorem c3_parser_flags_clean (s : String) (f : Int) (res : PyObj)
    (h : l_ldap_str2dn s f = .ok res) :
    ∀ fl ∈ pyFlagsOf res, intBit fl 4 = 0 ∧ intBit fl 5 = 0 := by
  intro fl hfl
  unfold l_ldap_str2dn at h
  cases hdn : ldap_bv2dn s f with
  | error code => rw [hdn] at h; cases h
  | ok dn =>
    rw [hdn] at h
    obtain rfl : str2dnConvert dn = res := by injection h
    obtain ⟨m, rfl⟩ := pyFlagsOf_str2dnConvert dn fl hfl
    exact clearOwnBits_clean m

/-- Witness for C3 on the parse of `a=b`, whose single flag word is 1. -/
theorem c3_parser_flags_clean_witness : intBit 1 4 = 0 ∧ intBit 1 5 = 0 :=
  c3_parser_flags_clean "a=b" 0
    (.pylist [.pylist [.pytuple [.pystr "a", .pystr "b", .pyint 1]]]) rfl 1 (by decide)

/-- C4: the empty DN.  `parse("", 0)` returns the empty list and
`build([], 0)` returns the empty string. -/
theorem c4_empty_dn :
    l_ldap_str2dn "" 0 = .ok (.pylist []) ∧
    l_ldap_dn2str (.pylist []) 0 = .ok "" := ⟨rfl, rfl⟩

/-- C5: malformed input rejection.  `parse("=noattr", 0)` (missing
attribute type) and `parse("a=b,", 0)` (trailing separator) both fail with
the LDAP error carrying the engine code `LDAP_INVALID_DN_SYNTAX`; being
errors of the `Except`, no partial parse result is returned. -/
theorem c5_malformed_rejected :
    l_ldap_str2dn "=noattr" 0 = .error (.ldapError LDAP_INVALID_DN_SYNTAX) ∧
    l_ldap_str2dn "a=b," 0 = .error (.ldapError LDAP_INVALID_DN_SYNTAX) := ⟨rfl, rfl⟩

/-- C7: multi-valued RDN.  `parse("a=b+c=d", 0)` returns exactly one RDN
holding the two AVAs `("a","b",F)` and `("c","d",F)` in order, with the
default flag value `F = LDAP_AVA_STRING`. -/
theorem c7_multivalued_rdn :
    l_ldap_str2dn "a=b+c=d" 0 =
      .ok (.pylist [.pylist
        [.pytuple [.pystr "a", .pystr "b", .pyint LDAP_AVA_STRING],
         .pytuple [.pystr "c", .pystr "d", .pyint LDAP_AVA_STRING]]]) := rfl

/-- C8: the builder's allocation discipline is violated.  The successful
call `dn2str([[("a","b",1)]], 0)` performs three heap allocations (the
`LDAPDN` at line 169, one `LDAPRDN` at line 209, one `LDAPAVA` at line
247) and zero frees — the `ldap_dnfree(dn)` at line 273 is commented out
and no error label frees the working set — so the per-RDN and per-AVA
working storage is not released exactly once. -/
theorem c8_builder_leaks :
    dn2strCounted (.pylist [.pylist [.pytuple [.pystr "a", .pystr "b", .pyint 1]]]) 0 =
      (.ok "a=b", { mallocs := 3, frees := 0 }) := rfl

/-- C9: the builder accepts an RDN with zero AVAs.  An empty tuple or an
empty list as an RDN element passes validation (the inner loop inspects
only yielded items) and the call succeeds, with no `TypeMismatchError`. -/
theorem c9_empty_rdn_accepted :
    l_ldap_dn2str (.pylist [.pytuple []]) 0 = .ok "" ∧
    l_ldap_dn2str (.pylist [.pylist []]) 0 = .ok "" := ⟨rfl, rfl⟩

/-- C10: `str2dn` takes an optional flags argument defaulting to 0 (format
`"z#|i"`), so a one-argument call behaves exactly like the same call with
flags 0; `dn2str` requires the flags argument (format `"Oi"`), so every
one-argument call fails in argument parsing. -/
theorem c10_optional_flags :
    (∀ s : String, str2dnMeth [.pystr s] = str2dnMeth [.pystr s, .pyint 0]) ∧
    (∀ o : PyObj, dn2strMeth [o] = .error (.argError "dn2str")) :=
  ⟨fun _ => rfl, fun _ => rfl⟩

/-! ## Round-trip helper lemmas (claim C1) -/

/-- A separator character is `,`, `;` or `+`. -/
theorem sepChar_cases {c : Char} (h : isSepChar c = true) : c = ',' ∨ c = ';' ∨ c = '+' := by
  simp only [isSepChar, Bool.or_eq_true, beq_iff_eq] at h
  tauto

/-- `readPlain` on empty input yields the empty value. -/
theorem readPlain_nil : readPlain [] = .ok ([], none, []) := by rw [readPlain]

/-- `readPlain` stops at a separator. -/
theorem readPlain_cons_sep {c : Char} (rest : List Char) (h : isSepChar c = true) :
    readPlain (c :: rest) = .ok ([], some c, rest) := by
  have h1 : (c == '\\') = false := by
    rcases sepChar_cases h with rfl | rfl | rfl <;> rfl
  rw [readPlain.eq_def]
  simp only [h1, h, Bool.false_eq_true, if_false, if_true]

/-- `readPlain` decodes a literal backslash escape. -/
theorem readPlain_cons_esc {c : Char} (rest : List Char) (h : isEscapable c = true) :
    readPlain ('\\' :: c :: rest) = (readPlain rest).map (consVal c) := by
  rw [readPlain.eq_def]
  simp only [beq_self_eq_true, if_true, h]

/-- `readPlain` passes an unremarkable character through. -/
theorem readPlain_cons_plain {c : Char} (rest : List Char)
    (h1 : (c == '\\') = false) (h2 : isSepChar c = false) (h3 : (c == '"') = false) :
    readPlain (c :: rest) = (readPlain rest).map (consVal c) := by
  rw [readPlain.eq_def]
  simp only [h1, h2, h3, Bool.false_eq_true, if_false]

/-- `readPlain` on a separator-or-end suffix yields the empty value. -/
theorem readPlain_sepSuffix (s : Option Char) (rest : List Char)
    (hs : sepOk s) (hr : s = none → rest = []) :
    readPlain (sepList s ++ rest) = .ok ([], s, rest) := by
  cases s with
  | none => rw [hr rfl]; exact readPlain_nil
  | some c => exact readPlain_cons_sep rest hs

/-- A non-special character is not a backslash, separator or quote. -/
theorem notSpecial_facts {c : Char} (h : isSpecialChar c = false) :
    (c == '\\') = false ∧ isSepChar c = false ∧ (c == '"') = false := by
  simp only [isSpecialChar, Bool.or_eq_false_iff] at h
  obtain ⟨⟨⟨⟨⟨⟨⟨hc, hp⟩, hq⟩, hb⟩, hl⟩, hg⟩, hs⟩, he⟩ := h
  exact ⟨hb, by simp only [isSepChar, hc, hp, hs, Bool.or_eq_false_iff]; tauto, hq⟩

/-- Every special character is a legal escape. -/
theorem special_escapable {c : Char} (h : isSpecialChar c = true) : isEscapable c = true := by
  simp [isEscapable, h]

/-- Unfolding equation of `escapeTail` on the empty list. -/
theorem escapeTail_nil : escapeTail [] = [] := rfl

/-- Unfolding equation of `escapeTail` on the final character. -/
theorem escapeTail_single (c : Char) :
    escapeTail [c] = if c == ' ' then ['\\', ' '] else escChar c := rfl

/-- Unfolding equation of `escapeTail` on an inner character. -/
theorem escapeTail_cons2 (c d : Char) (v : List Char) :
    escapeTail (c :: d :: v) = escChar c ++ escapeTail (d :: v) := rfl

/-- `readPlain` undoes `escChar` on any single character. -/
theorem readPlain_escChar (c : Char) (tail : List Char) :
    readPlain (escChar c ++ tail) = (readPlain tail).map (consVal c) := by
  by_cases hspec : isSpecialChar c = true
  · rw [escChar, if_pos hspec]
    show readPlain ('\\' :: c :: tail) = _
    exact readPlain_cons_esc tail (special_escapable hspec)
  · have hf : isSpecialChar c = false := by simpa using hspec
    obtain ⟨h1, h2, h3⟩ := notSpecial_facts hf
    rw [escChar, if_neg hspec]
    show readPlain (c :: tail) = _
    exact readPlain_cons_plain tail h1 h2 h3

/-- `readPlain` undoes `escapeTail` and then consumes the separator. -/
theorem readPlain_escapeTail (v : List Char) :
    ∀ (s : Option Char) (rest : List Char), sepOk s → (s = none → rest = []) →
      readPlain (escapeTail v ++ (sepList s ++ rest)) = .ok (v, s, rest) := by
  induction v with
  | nil =>
    intro s rest hs hr
    rw [escapeTail_nil, List.nil_append]
    exact readPlain_sepSuffix s rest hs hr
  | cons c v' ih =>
    intro s rest hs hr
    cases v' with
    | nil =>
      rw [escapeTail_single]
      by_cases hsp : (c == ' ') = true
      · have hc : c = ' ' := by simpa using hsp
        subst hc
        rw [if_pos hsp]
        show readPlain ('\\' :: ' ' :: (sepList s ++ rest)) = _
        rw [readPlain_cons_esc _ (by decide), readPlain_sepSuffix s rest hs hr]
        rfl
      · rw [if_neg hsp, readPlain_escChar, readPlain_sepSuffix s rest hs hr]
        rfl
    | cons d v'' =>
      rw [escapeTail_cons2, List.append_assoc, readPlain_escChar, ih s rest hs hr]
      rfl

/-- Unfolding equation of `escapeValue` on the empty list. -/
theorem escapeValue_nil : escapeValue [] = [] := rfl

/-- Unfolding equation of `escapeValue` on the leading character. -/
theorem escapeValue_cons (c : Char) (v : List Char) :
    escapeValue (c :: v) =
      (if c == ' ' || c == '#' then ['\\', c] else escChar c) ++ escapeTail v := rfl

/-- `readPlain` undoes `escapeValue` and then consumes the separator: the
escaping side of the round trip for plain string values. -/
theorem readPlain_escapeValue (v : List Char) (s : Option Char) (rest : List Char)
    (hs : sepOk s) (hr : s = none → rest = []) :
    readPlain (escapeValue v ++ (sepList s ++ rest)) = .ok (v, s, rest) := by
  cases v with
  | nil =>
    rw [escapeValue_nil, List.nil_append]
    exact readPlain_sepSuffix s rest hs hr
  | cons c v' =>
    rw [escapeValue_cons]
    by_cases hsp : (c == ' ' || c == '#') = true
    · have hesc : isEscapable c = true := by
        rcases (Bool.or_eq_true _ _).mp hsp with h | h
        · have hc : c = ' ' := by simpa using h
          subst hc; decide
        · have hc : c = '#' := by simpa using h
          subst hc; decide
      rw [if_pos hsp, List.append_assoc]
      show readPlain ('\\' :: c :: (escapeTail v' ++ (sepList s ++ rest))) = _
      rw [readPlain_cons_esc _ hesc, readPlain_escapeTail v' s rest hs hr]
      rfl
    · rw [if_neg hsp, List.append_assoc, readPlain_escChar, readPlain_escapeTail v' s rest hs hr]
      rfl

/-- `hexVal` inverts `hexDigitChar` below 16. -/
theorem hexVal_hexDigitChar {n : Nat} (h : n < 16) : hexVal (hexDigitChar n) = some n := by
  interval_cases n <;> decide

/-- Hex digit characters are not separators. -/
theorem hexDigitChar_not_sep {n : Nat} (h : n < 16) : isSepChar (hexDigitChar n) = false := by
  interval_cases n <;> decide

/-- `readHex` on empty input yields the empty value. -/
theorem readHex_nil : readHex [] = .ok ([], none, []) := by rw [readHex]

/-- `readHex` stops at a separator. -/
theorem readHex_cons_sep {c : Char} (rest : List Char) (h : isSepChar c = true) :
    readHex (c :: rest) = .ok ([], some c, rest) := by
  rw [readHex.eq_def]
  simp only [h, if_true]

/-- `readHex` on a separator-or-end suffix yields the empty value. -/
theorem readHex_sepSuffix (s : Option Char) (rest : List Char)
    (hs : sepOk s) (hr : s = none → rest = []) :
    readHex (sepList s ++ rest) = .ok ([], s, rest) := by
  cases s with
  | none => rw [hr rfl]; exact readHex_nil
  | some c => exact readHex_cons_sep rest hs

/-- Decoding the two hex digits of a character restores it. -/
theorem hexPairChar_split (c : Char) :
    hexPairChar (c.toNat / 16) (c.toNat % 16) = c := by
  rw [hexPairChar]
  have h16 : 16 * (c.toNat / 16) + c.toNat % 16 = c.toNat := by omega
  rw [h16, Char.ofNat_toNat]

/-- `readHex` undoes `hexEncode` and then consumes the separator: the hex
side of the round trip for binary values. -/
theorem readHex_hexEncode (v : List Char) :
    ∀ (s : Option Char) (rest : List Char), (∀ c ∈ v, c.toNat < 256) →
      sepOk s → (s = none → rest = []) →
      readHex (hexEncode v ++ (sepList s ++ rest)) = .ok (v, s, rest) := by
  induction v with
  | nil =>
    intro s rest _ hs hr
    rw [hexEncode, List.nil_append]
    exact readHex_sepSuffix s rest hs hr
  | cons c v' ih =>
    intro s rest hv hs hr
    have hc : c.toNat < 256 := hv c (List.mem_cons_self c v')
    have hq : c.toNat / 16 < 16 := by omega
    have hm : c.toNat % 16 < 16 := by omega
    rw [hexEncode]
    show readHex (hexDigitChar (c.toNat / 16) :: hexDigitChar (c.toNat % 16) ::
      (hexEncode v' ++ (sepList s ++ rest))) = _
    rw [readHex.eq_def]
    simp only [hexDigitChar_not_sep hq, Bool.false_eq_true, if_false,
      hexVal_hexDigitChar hq, hexVal_hexDigitChar hm,
      ih s rest (fun d hd => hv d (List.mem_cons_of_mem c hd)) hs hr]
    rw [hexPairChar_split c]
    rfl

/-- `takeWhile`/`dropWhile` split a list at the first failing element. -/
theorem takeWhile_split {α : Type} (p : α → Bool) (l r : List α) (x : α)
    (hl : l.all p = true) (hx : p x = false) :
    (l ++ x :: r).takeWhile p = l ∧ (l ++ x :: r).dropWhile p = x :: r := by
  induction l with
  | nil => simp [List.takeWhile_cons, List.dropWhile_cons, hx]
  | cons a as ih =>
    simp only [List.all_cons, Bool.and_eq_true] at hl
    have h2 := ih hl.2
    simp [List.takeWhile_cons, List.dropWhile_cons, hl.1, h2.1, h2.2]

/-- All characters of a numeric OID are attribute-type characters. -/
theorem oidAux_all_key :
    ∀ (l : List Char) (seen : Bool), validNumericOidAux l seen = true →
      l.all isKeyChar = true := by
  intro l
  induction l with
  | nil => simp
  | cons c rest ih =>
    intro seen h
    rw [validNumericOidAux] at h
    by_cases hc : (c == '.') = true
    · rw [if_pos hc, Bool.and_eq_true] at h
      have hk : isKeyChar c = true := by
        have hdot : c = '.' := by simpa using hc
        subst hdot; decide
      simp only [List.all_cons, hk, ih false h.2, Bool.and_self]
    · rw [if_neg hc, Bool.and_eq_true] at h
      have hk : isKeyChar c = true := by
        simp only [isKeyChar, Char.isAlphanum, h.1, Bool.or_true, Bool.true_or]
      simp only [List.all_cons, hk, ih true h.2, Bool.and_self]

/-- All characters of a valid attribute type are attribute-type
characters. -/
theorem validAttrType_all_key {l : List Char} (h : validAttrType l = true) :
    l.all isKeyChar = true := by
  rw [validAttrType, Bool.or_eq_true] at h
  rcases h with h | h
  · cases l with
    | nil => simp [validDescriptor] at h
    | cons c rest =>
      rw [validDescriptor, Bool.and_eq_true] at h
      have hk : isKeyChar c = true := by
        simp only [isKeyChar, Char.isAlphanum, h.1, Bool.true_or]
      simp only [List.all_cons, hk, Bool.true_and]
      rw [List.all_eq_true] at h ⊢
      intro d hd
      have hd2 := h.2 d hd
      rw [Bool.or_eq_true] at hd2
      rcases hd2 with h' | h'
      · simp only [isKeyChar, h', Bool.true_or]
      · simp only [isKeyChar, h', Bool.or_true, Bool.true_or]
  · exact oidAux_all_key l false h

/-- A valid attribute type is non-empty. -/
theorem validAttrType_ne_nil {l : List Char} (h : validAttrType l = true) : l ≠ [] := by
  intro hl
  subst hl
  simp [validAttrType, validDescriptor, validNumericOid, validNumericOidAux] at h

/-- A separator is neither `#` nor `"`. -/
theorem sep_not_hash_quote {c : Char} (h : isSepChar c = true) :
    (c == '#') = false ∧ (c == '"') = false := by
  rcases sepChar_cases h with rfl | rfl | rfl <;> exact ⟨rfl, rfl⟩

/-- The text of an escaped plain value followed by its separator either is
empty (empty value at end of input) or starts with a character that is
neither `#` nor `"` — so the parser selects the plain-value notation. -/
theorem escapeValue_headSafe (v : List Char) (s : Option Char) (rest : List Char)
    (hs : sepOk s) (hr : s = none → rest = []) :
    (v = [] ∧ s = none ∧ rest = [] ∧ escapeValue v ++ (sepList s ++ rest) = []) ∨
    (∃ c t, escapeValue v ++ (sepList s ++ rest) = c :: t ∧
      (c == '#') = false ∧ (c == '"') = false) := by
  cases v with
  | nil =>
    cases s with
    | none => exact Or.inl ⟨rfl, rfl, hr rfl, by rw [hr rfl]; rfl⟩
    | some c =>
      obtain ⟨h1, h2⟩ := sep_not_hash_quote hs
      exact Or.inr ⟨c, rest, by rw [escapeValue_nil, List.nil_append]; rfl, h1, h2⟩
  | cons c0 v' =>
    rw [escapeValue_cons]
    by_cases hsp : (c0 == ' ' || c0 == '#') = true
    · rw [if_pos hsp]
      exact Or.inr ⟨'\\', c0 :: (escapeTail v' ++ (sepList s ++ rest)), by simp, rfl, rfl⟩
    · rw [if_neg hsp]
      have hh : (c0 == '#') = false := by
        have hx : (c0 == ' ' || c0 == '#') = false := by simpa using hsp
        exact (Bool.or_eq_false_iff.mp hx).2
      by_cases hspec : isSpecialChar c0 = true
      · rw [escChar, if_pos hspec]
        exact Or.inr ⟨'\\', c0 :: (escapeTail v' ++ (sepList s ++ rest)), by simp, rfl, rfl⟩
      · have hf : isSpecialChar c0 = false := by simpa using hspec
        have hq : (c0 == '"') = false := (notSpecial_facts hf).2.2
        rw [escChar, if_neg hspec]
        exact Or.inr ⟨c0, escapeTail v' ++ (sepList s ++ rest), by simp, hh, hq⟩

/-- Rebuilding a `String` from its character list is the identity. -/
theorem stringMk_data (s : String) : String.mk s.data = s := rfl

/-- The parser inverts the serializer on one well-formed AVA, consuming
the following separator; the returned AVA carries the engine's ownership
marking on its flags. -/
theorem parseAva_encode (a : LDAPAVA) (ha : wfAva a) (s : Option Char) (rest : List Char)
    (hs : sepOk s) (hr : s = none → rest = []) :
    parseAva (encodeAva a ++ (sepList s ++ rest)) = .ok (markAva a, s, rest) := by
  obtain ⟨hattr, hfl⟩ := ha
  rw [encodeAva, List.append_assoc, List.cons_append]
  rw [parseAva]
  rw [(takeWhile_split isKeyChar a.la_attr.data _ '='
        (validAttrType_all_key hattr) (by decide)).1,
      (takeWhile_split isKeyChar a.la_attr.data _ '='
        (validAttrType_all_key hattr) (by decide)).2,
      if_pos hattr]
  rcases hfl with hfl | ⟨hfl, hbytes⟩
  · rw [hfl, show hasBinaryBit LDAP_AVA_STRING = false from by decide]
    simp only [Bool.false_eq_true, if_false]
    rcases escapeValue_headSafe a.la_value.data s rest hs hr with
      ⟨hv, hsn, hrn, hY⟩ | ⟨c, t, hY, h1, h2⟩
    · subst hsn; subst hrn
      rw [hY]
      have hval : a.la_value = String.mk [] := by rw [← hv]
      simp only [readPlain_nil, Except.map, mkAvaRes, markAva, stringMk_data, hfl, ← hval]
    · rw [hY]
      split
      · rename_i rest3 heq
        injection heq with hc ht
        rw [hc] at h1
        simp at h1
      · rename_i rest3 heq
        injection heq with hc ht
        rw [hc] at h2
        simp at h2
      · rw [← hY, readPlain_escapeValue a.la_value.data s rest hs hr]
        simp only [Except.map, mkAvaRes, markAva, stringMk_data, hfl]
  · rw [hfl, show hasBinaryBit LDAP_AVA_BINARY = true from by decide]
    simp only [if_true, List.cons_append]
    rw [readHex_hexEncode a.la_value.data s rest hbytes hs hr]
    simp only [Except.map, mkAvaRes, markAva, stringMk_data, hfl]

/-- `intercalate` on a singleton. -/
theorem interc_single (s x : List Char) : List.intercalate s [x] = x := by
  simp [List.intercalate]

/-- `intercalate` peels its first element and separator. -/
theorem interc_cons2 (s x y : List Char) (l : List (List Char)) :
    List.intercalate s (x :: y :: l) = x ++ s ++ List.intercalate s (y :: l) := by
  simp [List.intercalate, List.intersperse]

/-- Unfolding equation of `flattenRdn` on the last AVA. -/
theorem flattenRdn_single (a : LDAPAVA) (after : Option Char) :
    flattenRdn [a] after = [(a, after)] := rfl

/-- Unfolding equation of `flattenRdn` on an inner AVA. -/
theorem flattenRdn_cons2 (a b : LDAPAVA) (r : List LDAPAVA) (after : Option Char) :
    flattenRdn (a :: b :: r) after = (a, some '+') :: flattenRdn (b :: r) after := rfl

/-- Unfolding equation of `flattenDn` on the last RDN. -/
theorem flattenDn_single (r : LDAPRDN) : flattenDn [r] = flattenRdn r none := rfl

/-- Unfolding equation of `flattenDn` on an inner RDN. -/
theorem flattenDn_cons2 (r r2 : LDAPRDN) (rest : List LDAPRDN) :
    flattenDn (r :: r2 :: rest) = flattenRdn r (some ',') ++ flattenDn (r2 :: rest) := rfl

/-- Unfolding equation of `groupAvas`. -/
theorem groupAvas_cons (a : LDAPAVA) (s : Option Char) (rest : List (LDAPAVA × Option Char)) :
    groupAvas ((a, s) :: rest) =
      if s = some '+' then
        match groupAvas rest with
        | [] => [[a]]
        | r :: rs => (a :: r) :: rs
      else [a] :: groupAvas rest := rfl

/-- Regrouping a flattened RDN that ends in a `,` separator restores it and
continues with the tail. -/
theorem groupAvas_flattenRdn_comma (r : List LDAPAVA) :
    ∀ (a : LDAPAVA) (tail : List (LDAPAVA × Option Char)),
      groupAvas (flattenRdn (a :: r) (some ',') ++ tail) = (a :: r) :: groupAvas tail := by
  induction r with
  | nil =>
    intro a tail
    rw [flattenRdn_single, List.cons_append, List.nil_append, groupAvas_cons,
      if_neg (by decide)]
  | cons b r' ih =>
    intro a tail
    rw [flattenRdn_cons2, List.cons_append, groupAvas_cons, if_pos rfl, ih b tail]

/-- Regrouping a flattened final RDN restores it. -/
theorem groupAvas_flattenRdn_last (r : List LDAPAVA) :
    ∀ a : LDAPAVA, groupAvas (flattenRdn (a :: r) none) = [a :: r] := by
  induction r with
  | nil =>
    intro a
    rw [flattenRdn_single]
    rfl
  | cons b r' ih =>
    intro a
    rw [flattenRdn_cons2, groupAvas_cons, if_pos rfl, ih b]

/-- Regrouping the flattening of a DN with non-empty RDNs restores it. -/
theorem groupAvas_flattenDn (d : LDAPDN) (h : ∀ r ∈ d, r ≠ []) :
    groupAvas (flattenDn d) = d := by
  induction d with
  | nil => rfl
  | cons r rest ih =>
    obtain ⟨a, r', rfl⟩ := List.exists_cons_of_ne_nil (h r (List.mem_cons_self r rest))
    cases rest with
    | nil => rw [flattenDn_single, groupAvas_flattenRdn_last]
    | cons r2 rest' =>
      rw [flattenDn_cons2, groupAvas_flattenRdn_comma,
        ih (fun x hx => h x (List.mem_cons_of_mem _ hx))]

/-- Ownership marking commutes with `flattenRdn`. -/
theorem markFlat_flattenRdn (r : List LDAPAVA) :
    ∀ after : Option Char,
      markFlat (flattenRdn r after) = flattenRdn (r.map markAva) after := by
  induction r with
  | nil => intro after; rfl
  | cons a r' ih =>
    intro after
    cases r' with
    | nil => rfl
    | cons b r'' =>
      rw [flattenRdn_cons2]
      have hm : markFlat ((a, some '+') :: flattenRdn (b :: r'') after) =
          (markAva a, some '+') :: markFlat (flattenRdn (b :: r'') after) := rfl
      rw [hm, ih after]
      simp [flattenRdn_cons2]

/-- `markFlat` distributes over append. -/
theorem markFlat_append (L1 L2 : List (LDAPAVA × Option Char)) :
    markFlat (L1 ++ L2) = markFlat L1 ++ markFlat L2 := by
  simp [markFlat]

/-- Ownership marking commutes with `flattenDn`. -/
theorem markFlat_flattenDn (d : LDAPDN) :
    markFlat (flattenDn d) = flattenDn (markDn d) := by
  induction d with
  | nil => rfl
  | cons r rest ih =>
    cases rest with
    | nil => rw [flattenDn_single, markDn, List.map_cons, List.map_nil, flattenDn_single,
        markFlat_flattenRdn]
    | cons r2 rest' =>
      rw [flattenDn_cons2, markFlat_append, markFlat_flattenRdn, ih]
      have hm : markDn (r :: r2 :: rest') = r.map markAva :: markDn (r2 :: rest') := rfl
      have hm2 : markDn (r2 :: rest') = r2.map markAva :: markDn rest' := rfl
      rw [hm, hm2, flattenDn_cons2, ← hm2]

/-- A flattened final RDN of well-formed AVAs is a well-formed flat
sequence. -/
theorem wfFlat_flattenRdn_last (r : List LDAPAVA) :
    ∀ a : LDAPAVA, (∀ x ∈ a :: r, wfAva x) → WfFlat (flattenRdn (a :: r) none) := by
  induction r with
  | nil =>
    intro a h
    rw [flattenRdn_single]
    exact WfFlat.last a (h a (List.mem_cons_self a []))
  | cons b r' ih =>
    intro a h
    rw [flattenRdn_cons2]
    exact WfFlat.cons a '+' _ (h a (List.mem_cons_self a _)) (by decide)
      (ih b (fun x hx => h x (List.mem_cons_of_mem a hx)))

/-- A flattened inner RDN of well-formed AVAs prepends well-formedly onto a
well-formed flat tail. -/
theorem wfFlat_flattenRdn_comma (r : List LDAPAVA) :
    ∀ (a : LDAPAVA) (tail : List (LDAPAVA × Option Char)),
      (∀ x ∈ a :: r, wfAva x) → WfFlat tail →
      WfFlat (flattenRdn (a :: r) (some ',') ++ tail) := by
  induction r with
  | nil =>
    intro a tail h htail
    rw [flattenRdn_single, List.cons_append, List.nil_append]
    exact WfFlat.cons a ',' tail (h a (List.mem_cons_self a [])) (by decide) htail
  | cons b r' ih =>
    intro a tail h htail
    rw [flattenRdn_cons2, List.cons_append]
    exact WfFlat.cons a '+' _ (h a (List.mem_cons_self a _)) (by decide)
      (ih b tail (fun x hx => h x (List.mem_cons_of_mem a hx)) htail)

/-- The flattening of a non-empty well-formed DN is a well-formed flat
sequence. -/
theorem wfFlat_flattenDn (d : LDAPDN) (h : wfDn d) (hne : d ≠ []) :
    WfFlat (flattenDn d) := by
  induction d with
  | nil => exact absurd rfl hne
  | cons r rest ih =>
    obtain ⟨hr, havas⟩ := h r (List.mem_cons_self r rest)
    obtain ⟨a, r', rfl⟩ := List.exists_cons_of_ne_nil hr
    cases rest with
    | nil => rw [flattenDn_single]; exact wfFlat_flattenRdn_last r' a havas
    | cons r2 rest' =>
      rw [flattenDn_cons2]
      exact wfFlat_flattenRdn_comma r' a _ havas
        (ih (fun x hx => h x (List.mem_cons_of_mem _ hx)) (by simp))

/-- The serialization of a well-formed AVA is at least two characters. -/
theorem encodeAva_len {a : LDAPAVA} (ha : wfAva a) : 2 ≤ (encodeAva a).length := by
  have hne := validAttrType_ne_nil ha.1
  have h1 : 1 ≤ a.la_attr.data.length := by
    cases h : a.la_attr.data with
    | nil => exact absurd h hne
    | cons c l => simp
  rw [encodeAva]
  simp only [List.length_append, List.length_cons]
  omega

/-- Unfolding equation of `flatEncode`. -/
theorem flatEncode_cons (a : LDAPAVA) (s : Option Char) (rest : List (LDAPAVA × Option Char)) :
    flatEncode ((a, s) :: rest) = encodeAva a ++ sepList s ++ flatEncode rest := rfl

/-- The serialization of a well-formed flat sequence is non-empty and at
least as long as the number of AVAs in it. -/
theorem flatEncode_len {L : List (LDAPAVA × Option Char)} (h : WfFlat L) :
    L.length ≤ (flatEncode L).length ∧ 1 ≤ (flatEncode L).length := by
  induction h with
  | last a ha =>
    have := encodeAva_len ha
    rw [flatEncode_cons]
    simp only [List.length_append, List.length_singleton]
    simp [sepList, flatEncode]
    omega
  | cons a c l ha hc hl ih =>
    have := encodeAva_len ha
    rw [flatEncode_cons]
    simp only [List.length_append, List.length_cons, sepList, List.length_singleton]
    omega

/-- `flatEncode` distributes over append. -/
theorem flatEncode_append (L1 L2 : List (LDAPAVA × Option Char)) :
    flatEncode (L1 ++ L2) = flatEncode L1 ++ flatEncode L2 := by
  induction L1 with
  | nil => rfl
  | cons p L1' ih =>
    obtain ⟨a, s⟩ := p
    rw [List.cons_append, flatEncode_cons, flatEncode_cons, ih]
    simp [List.append_assoc]

/-- `encodeRdn` on a singleton RDN. -/
theorem encodeRdn_single (a : LDAPAVA) : encodeRdn [a] = encodeAva a := by
  rw [encodeRdn, List.map_cons, List.map_nil, interc_single]

/-- `encodeRdn` peels its first AVA and `+` separator. -/
theorem encodeRdn_cons2 (a b : LDAPAVA) (r : List LDAPAVA) :
    encodeRdn (a :: b :: r) = encodeAva a ++ ['+'] ++ encodeRdn (b :: r) := by
  rw [encodeRdn, List.map_cons, List.map_cons, interc_cons2]
  rfl

/-- `encodeDn` on a singleton DN. -/
theorem encodeDn_single (r : LDAPRDN) : encodeDn [r] = encodeRdn r := by
  rw [encodeDn, List.map_cons, List.map_nil, interc_single]

/-- `encodeDn` peels its first RDN and `,` separator. -/
theorem encodeDn_cons2 (r r2 : LDAPRDN) (rest : List LDAPRDN) :
    encodeDn (r :: r2 :: rest) = encodeRdn r ++ [','] ++ encodeDn (r2 :: rest) := by
  rw [encodeDn, List.map_cons, List.map_cons, interc_cons2]
  rfl

/-- Serializing a flattened RDN gives the RDN's serialization, followed by
its continuation separator. -/
theorem flatEncode_flattenRdn (r : List LDAPAVA) :
    ∀ (a : LDAPAVA) (after : Option Char),
      flatEncode (flattenRdn (a :: r) after) = encodeRdn (a :: r) ++ sepList after := by
  induction r with
  | nil =>
    intro a after
    rw [flattenRdn_single, flatEncode_cons, encodeRdn_single]
    simp [flatEncode]
  | cons b r' ih =>
    intro a after
    rw [flattenRdn_cons2, flatEncode_cons, ih b after, encodeRdn_cons2]
    simp [sepList, List.append_assoc]

/-- Serializing the flattening of a DN with non-empty RDNs gives the DN's
serialization: the two serializer presentations agree. -/
theorem flatEncode_flattenDn (d : LDAPDN) (h : ∀ r ∈ d, r ≠ []) :
    flatEncode (flattenDn d) = encodeDn d := by
  induction d with
  | nil => rfl
  | cons r rest ih =>
    obtain ⟨a, r', rfl⟩ := List.exists_cons_of_ne_nil (h _ (List.mem_cons_self _ rest))
    cases rest with
    | nil =>
      rw [flattenDn_single, flatEncode_flattenRdn, encodeDn_single]
      simp [sepList]
    | cons r2 rest' =>
      rw [flattenDn_cons2, flatEncode_append, flatEncode_flattenRdn,
        ih (fun x hx => h x (List.mem_cons_of_mem _ hx)), encodeDn_cons2]
      simp [sepList, List.append_assoc]

/-- The AVA-sequence parser inverts `flatEncode` on every well-formed flat
sequence, given fuel at least the number of AVAs. -/
theorem parseAvaList_flatEncode {L : List (LDAPAVA × Option Char)} (hL : WfFlat L) :
    ∀ fuel : Nat, L.length ≤ fuel →
      parseAvaList fuel (flatEncode L) = .ok (markFlat L) := by
  induction hL with
  | last a ha =>
    intro fuel hf
    cases fuel with
    | zero => simp at hf
    | succ f =>
      rw [flatEncode_cons]
      have hfe : flatEncode ([] : List (LDAPAVA × Option Char)) = [] := rfl
      rw [hfe, List.append_assoc, parseAvaList,
        parseAva_encode a ha none [] trivial (fun _ => rfl)]
      rfl
  | cons a c l ha hc hl ih =>
    intro fuel hf
    cases fuel with
    | zero => simp at hf
    | succ f =>
      rw [flatEncode_cons, List.append_assoc, parseAvaList,
        parseAva_encode a ha (some c) (flatEncode l) hc (fun h => nomatch h)]
      dsimp only
      rw [ih f (by simpa using hf)]
      rfl

/-- The engine parser inverts the engine serializer on every non-empty
well-formed DN, returning it with ownership-marked flags. -/
theorem bv2dn_encodeDn (d : LDAPDN) (h : wfDn d) (hne : d ≠ []) :
    ldap_bv2dn (String.mk (encodeDn d)) 0 = .ok (markDn d) := by
  have hW := wfFlat_flattenDn d h hne
  have hrne : ∀ r ∈ d, r ≠ [] := fun r hr => (h r hr).1
  have hE := flatEncode_flattenDn d hrne
  have hlen := flatEncode_len hW
  have hfne : encodeDn d ≠ [] := by
    rw [← hE]
    intro hx
    rw [hx] at hlen
    simp at hlen
  obtain ⟨c, cs, hcs⟩ := List.exists_cons_of_ne_nil hfne
  show (match (String.mk (encodeDn d)).data with
    | [] => Except.ok ([] : LDAPDN)
    | c :: cs => (parseAvaList ((c :: cs).length + 1) (c :: cs)).map groupAvas) =
      .ok (markDn d)
  show (match encodeDn d with
    | [] => Except.ok ([] : LDAPDN)
    | c :: cs => (parseAvaList ((c :: cs).length + 1) (c :: cs)).map groupAvas) =
      .ok (markDn d)
  rw [hcs]
  dsimp only
  rw [← hcs, ← hE,
    parseAvaList_flatEncode hW ((flatEncode (flattenDn d)).length + 1) (by omega)]
  show Except.ok (groupAvas (markFlat (flattenDn d))) = _
  rw [markFlat_flattenDn, groupAvas_flattenDn (markDn d) ?hne2]
  case hne2 =>
    intro r hr
    rw [markDn, List.mem_map] at hr
    obtain ⟨r0, hr0, rfl⟩ := hr
    have := hrne r0 hr0
    simp [this]

/-- The builder validation accepts the canonical triple of an AVA. -/
theorem convAva_avaToPy (a : LDAPAVA) : convAva (avaToPy a) = .ok a := rfl

/-- The builder validation accepts the canonical list of an RDN. -/
theorem convRdn_rdnToPy (r : LDAPRDN) : convRdn (.pylist (r.map avaToPy)) = .ok r := by
  show (r.map avaToPy).mapM convAva = .ok r
  induction r with
  | nil => rfl
  | cons a r' ih =>
    rw [List.map_cons, List.mapM_cons, convAva_avaToPy, ih]
    rfl

/-- The builder validation converts the canonical Python representation of
a structured DN back to that DN. -/
theorem convDn_dnToPy (d : LDAPDN) : convDn (dnToPy d) = .ok d := by
  show (d.map (fun r => PyObj.pylist (r.map avaToPy))).mapM convRdn = .ok d
  induction d with
  | nil => rfl
  | cons r rest ih =>
    rw [List.map_cons, List.mapM_cons, convRdn_rdnToPy, ih]
    rfl

/-- Masking the ownership bits back out of a marked well-formed flag word
restores it. -/
theorem clearOwnBits_markAva {a : LDAPAVA} (ha : wfAva a) :
    clearOwnBits (a.la_flags + LDAP_AVA_FREE_ATTR + LDAP_AVA_FREE_VALUE) = a.la_flags := by
  rcases ha.2 with hfl | ⟨hfl, _⟩ <;> rw [hfl] <;> decide

/-- Converting the engine's marked parse of a well-formed DN yields the
caller's canonical Python representation. -/
theorem str2dnConvert_markDn (d : LDAPDN) (h : wfDn d) :
    str2dnConvert (markDn d) = dnToPy d := by
  simp only [str2dnConvert, dnToPy, markDn, List.map_map]
  congr 1
  apply List.map_congr_left
  intro r hr
  simp only [Function.comp]
  congr 1
  rw [List.map_map]
  apply List.map_congr_left
  intro a ha
  have hcl := clearOwnBits_markAva ((h r hr).2 a ha)
  simp only [Function.comp, avaToPy, markAva, hcl]

/-- C1: round-trip law.  For every well-formed structured DN `d` (non-empty
RDNs; valid non-empty attribute types; flags one of the public encoding
variants, with byte-sized characters in binary values) and the flag value
0 exercised by the spec's test matrix, `build(d, 0)` succeeds with some
string `s`, and `parse(s, 0)` returns exactly the structured value `d`
again — same types, same values, same flags, same order. -/
theorem c1_round_trip (d : LDAPDN) (h : wfDn d) :
    ∃ s : String, l_ldap_dn2str (dnToPy d) 0 = .ok s ∧
      l_ldap_str2dn s 0 = .ok (dnToPy d) := by
  refine ⟨String.mk (encodeDn d), ?_, ?_⟩
  · simp only [l_ldap_dn2str, convDn_dnToPy, ldap_dn2bv]
  · by_cases hne : d = []
    · subst hne; rfl
    · simp only [l_ldap_str2dn, bv2dn_encodeDn d h hne]
      rw [str2dnConvert_markDn d h]

/-- Witness for C1 on a DN exercising multi-valued RDNs, characters that
need escaping, an OID attribute type and a binary (hex) value. -/
theorem c1_round_trip_witness : ∃ s : String,
    l_ldap_dn2str (dnToPy [[⟨"cn", "John Doe", 1⟩, ⟨"o", "a+b", 1⟩],
      [⟨"1.2.3", " #x", 1⟩], [⟨"dc", "ab", 2⟩]]) 0 = .ok s ∧
    l_ldap_str2dn s 0 = .ok (dnToPy [[⟨"cn", "John Doe", 1⟩, ⟨"o", "a+b", 1⟩],
      [⟨"1.2.3", " #x", 1⟩], [⟨"dc", "ab", 2⟩]]) :=
  c1_round_trip _ (by decide)

/-- C6 counterexample: an inner container that is an iterable but not a
list or tuple — here the extra iterable kind `pyiter`, whose element is a
perfectly shaped `(string, string, integer)` triple — is rejected with
`TypeError`, contradicting the claim that any iterable inner container is
accepted: lines 198-204 accept only lists and tuples as RDN elements. -/
theorem c6_counterexample :
    (PyObj.pyiter [.pytuple [.pystr "a", .pystr "b", .pyint 1]]).iterSeq =
      some [.pytuple [.pystr "a", .pystr "b", .pyint 1]] ∧
    l_ldap_dn2str (.pylist [.pyiter [.pytuple [.pystr "a", .pystr "b", .pyint 1]]]) 0 =
      .error (.typeError typeErrorMsg) := ⟨rfl, rfl⟩

/-- C6 as amended: the outer container may be any iterable, but each RDN
element must be a list or tuple; each AVA element must be a list or tuple
of length at least 3 whose first three elements are (string, string,
integer); such input is accepted and serialized without a `TypeError`,
and elements of a triple beyond the third are ignored. -/
theorem c6_loose_builder_input (o : PyObj) (h : looseDn o) :
    (∃ s, l_ldap_dn2str o 0 = .ok s) ∧
    (∀ (t v : String) (fl : Int) (extra : List PyObj),
      convAva (.pytuple (.pystr t :: .pystr v :: .pyint fl :: extra)) = .ok ⟨t, v, fl⟩) := by
  constructor
  · obtain ⟨xs, hiter, hall⟩ := h
    obtain ⟨dn, hdn⟩ := exceptMapM_ok convRdn xs (fun x hx => convRdn_loose (hall x hx))
    refine ⟨String.mk (encodeDn dn), ?_⟩
    simp only [l_ldap_dn2str, convDn, hiter, hdn, ldap_dn2bv]
  · intro t v fl extra
    rfl

/-- Witness for the amended C6: an iterable (non-list) outer container
holding a tuple RDN whose AVA is a 4-tuple with an ignored extra element
is accepted. -/
theorem c6_loose_builder_input_witness :
    (∃ s, l_ldap_dn2str
      (.pyiter [.pytuple [.pytuple [.pystr "a", .pystr "b", .pyint 1, .pynone]]]) 0 = .ok s) ∧
    (∀ (t v : String) (fl : Int) (extra : List PyObj),
      convAva (.pytuple (.pystr t :: .pystr v :: .pyint fl :: extra)) = .ok ⟨t, v, fl⟩) :=
  c6_loose_builder_input _
    ⟨[.pytuple [.pytuple [.pystr "a", .pystr "b", .pyint 1, .pynone]]], rfl, by
      intro x hx
      rw [List.mem_singleton] at hx
      subst hx
      exact ⟨[.pytuple [.pystr "a", .pystr "b", .pyint 1, .pynone]], Or.inl rfl, fun y hy => by
        rw [List.mem_singleton] at hy
        subst hy
        exact ⟨[.pystr "a", .pystr "b", .pyint 1, .pynone], Or.inl rfl, "a", "b", 1,
          [.pynone], rfl⟩⟩⟩
